import Mathlib

/-!
Verification of the rgb_light-controller core: a shallow embedding of the
light-manager device state machine (`utils/light_manager.py`), the command
planner and debounce filter (`backlight.py`), the serialized command queue
worker (`backlight.py`), the screen color sampler
(`utils/screen_captures/helper.py`) and the spike orchestrator
(`spike_light.py`), together with theorems settling the specification's
claims about them.
-/

namespace RGBLight

/-- `PowerStatus` from `config/types.py`: an enum with values `"on"`/`"off"`. -/
inductive PowerStatus where
  | on
  | off
deriving DecidableEq, Repr

/-- The mutable fields of `LightManager` (`utils/light_manager.py`):
`previous_color`, `power_status`, `brightness_level`. -/
structure LMState where
  previous_color : Option String
  power_status : PowerStatus
  brightness_level : Option ℤ
deriving DecidableEq, Repr

/-- `except_color_commands` from `utils/light_manager.py`. -/
def except_color_commands : List String :=
  ["on", "off", "increase_brightness", "decrease_brightness"]

/-- Python's `s.startswith(p)`, computed on the character lists so that the
kernel can evaluate it. -/
def pyStartsWith (s p : String) : Bool := s.data.take p.data.length == p.data

/-- Splitting a character list on a separator character, with Python's
`str.split(sep)` semantics (`"waitx" ↦ ["waitx"]`, `"wait_" ↦ ["wait", ""]`). -/
def splitOnChar (sep : Char) : List Char → List (List Char)
  | [] => [[]]
  | c :: cs =>
      let r := splitOnChar sep cs
      if c = sep then [] :: r
      else
        match r with
        | [] => [[c]]
        | w :: ws => (c :: w) :: ws

/-- Python's `s.split(sep)` for a one-character separator. -/
def pySplit (s : String) (sep : Char) : List (List Char) := splitOnChar sep s.data

/-- The command vocabulary `light_config["command_mapping"]`: an association
list from command name to packet string, in insertion order. -/
abbrev Vocab := List (String × String)

/-- The success branch of the send in `LightManager.execute_commands`
(lines 103-115): `on`/`off` set `power_status`; `increase_brightness` /
`decrease_brightness` adjust `brightness_level` by ±1 only when it is not
`None`; any other sent command overwrites `previous_color` only when it is
not `None`. -/
def applySuccess (st : LMState) (c : String) : LMState :=
  if c = "on" ∨ c = "off" then
    { st with power_status := if c = "on" then .on else .off }
  else if c ∈ except_color_commands then
    match st.brightness_level with
    | some b =>
        if c = "decrease_brightness" then { st with brightness_level := some (b - 1) }
        else if c = "increase_brightness" then { st with brightness_level := some (b + 1) }
        else st
    | none => st
  else
    match st.previous_color with
    | some _ => { st with previous_color := some c }
    | none => st

/-- Accumulated outcome of `execute_commands`: the device state, the packets
sent so far (tagged with the batch position of the command that sent them),
and the pending Python exception, if one was raised. -/
structure ExecResult where
  state : LMState
  sent : List (ℕ × String)
  error : Option String
deriving DecidableEq, Repr

/-- One iteration of the command loop of `LightManager.execute_commands`
(lines 84-120) for the command at batch position `i`.  `waitParses s`
models whether Python's `float(s)` (and the following `time.sleep`)
succeeds on the text after `wait_`; `oracle n` models the status of the
`n`-th relay request of this batch (`true` = HTTP 200). -/
def execOne (vocab : Vocab) (waitParses : List Char → Bool) (oracle : ℕ → Bool)
    (acc : ExecResult) (i : ℕ) (c : String) : ExecResult :=
  match acc.error with
  | some _ => acc
  | none =>
    if acc.state.previous_color = some c ∧ acc.state.power_status = .on then acc
    else if pyStartsWith c "wait" then
      match (pySplit c '_')[1]? with
      | none => { acc with error := some "IndexError" }
      | some s => if waitParses s then acc else { acc with error := some "ValueError" }
    else
      match vocab.lookup c with
      | none => { acc with error := some "KeyError" }
      | some pkt =>
        if oracle acc.sent.length then
          { state := applySuccess acc.state c, sent := acc.sent ++ [(i, pkt)], error := none }
        else
          { acc with sent := acc.sent ++ [(i, pkt)] }

/-- The command loop of `execute_commands`, threading the batch position. -/
def execLoop (vocab : Vocab) (waitParses : List Char → Bool) (oracle : ℕ → Bool) :
    ℕ → ExecResult → List String → ExecResult
  | _, acc, [] => acc
  | i, acc, c :: cs =>
      execLoop vocab waitParses oracle (i + 1) (execOne vocab waitParses oracle acc i c) cs

/-- `LightManager.execute_commands` (lines 74-120): first the up-front
vocabulary check (`command.startswith("wait")` is exempt; the first
unsupported command raises before the loop), then the command loop. -/
def execute_commands (vocab : Vocab) (waitParses : List Char → Bool) (oracle : ℕ → Bool)
    (st : LMState) (commands : List String) : ExecResult :=
  match commands.find? (fun c => !(pyStartsWith c "wait") && (vocab.lookup c).isNone) with
  | some c => { state := st, sent := [], error := some ("Command " ++ c ++ " not supported") }
  | none => execLoop vocab waitParses oracle 0 { state := st, sent := [], error := none } commands

/-- `Backlight.get_commands` (`backlight.py` lines 41-51), with
`self.blink_wait_time = 0.1` so the wait command is literally `"wait_0.1"`.
The power test in the source is `self.light_manager.power_status.value == "off"`. -/
def get_commands (power : PowerStatus) (color_name : String) : List String :=
  if color_name = "black" then
    if power = .off then []
    else ["blink_mode", "wait_0.1", "off"]
  else
    if power = .off then ["on", color_name, "normal_mode"]
    else ["blink_mode", "wait_0.1", color_name, "normal_mode"]

/-! ## Frame processing: sampler output matching and the debounce filter -/

/-- An RGB triple (`numpy` `u8` values, here unbounded naturals). -/
abbrev Color := ℕ × ℕ × ℕ

/-- The squared Euclidean distance between two RGB colors.
`euclidean_distance` in `utils/screen_captures/helper.py` is
`np.sqrt` of this value; every comparison in the source applies a strictly
monotone `sqrt` to both sides, so comparisons are stated through
`Real.sqrt` of this quantity in the theorems below. -/
def sqDist (a b : Color) : ℤ :=
  ((a.1 : ℤ) - b.1) ^ 2 + ((a.2.1 : ℤ) - b.2.1) ^ 2 + ((a.2.2 : ℤ) - b.2.2) ^ 2

/-- The debounce test of `Backlight.process_frame` (`backlight.py` line 87):
`self.last_color is None or euclidean_distance(color, self.last_color) > 20`.
`sqrt d > 20 ↔ d > 400` for `d ≥ 0`, proved below as `sqrt_gt_twenty_iff`. -/
def debounce_passes (last_color : Option Color) (color : Color) : Bool :=
  match last_color with
  | none => true
  | some l => decide (400 < sqDist color l)

/-- `match_color_from_map_optimized` (`utils/screen_captures/helper.py`
lines 109-121): running strict minimum of the distance over the palette in
insertion order, so the earliest entry wins exact ties; `None` on an empty
palette.  The source compares `np.sqrt` of squared distances, equivalent to
comparing the squares. -/
def match_color_from_map_optimized (rgb : Color) (pre : List (String × Color)) : Option String :=
  (pre.foldl
    (fun (acc : Option ℤ × Option String) p =>
      match acc.1 with
      | none => (some (sqDist rgb p.2), some p.1)
      | some m => if sqDist rgb p.2 < m then (some (sqDist rgb p.2), some p.1) else acc)
    (none, none)).2

/-- The observable outcome of one `Backlight.process_frame` call: the value
returned (the classified name, or `None`), the updated `self.last_color`,
and the batch appended to the command queue, if any. -/
structure FrameResult where
  returned : Option String
  last_color : Option Color
  enqueued : Option (List String)
deriving DecidableEq, Repr

/-- `Backlight.process_frame` (`backlight.py` lines 82-112) after the sampler
has produced `color`: debounce against `last_color`, then classify, then plan
and enqueue unless the device is on and the name equals
`light_manager.previous_color`.  (With a nonempty palette the classification
is always `some`; the degenerate `None` classification of an empty palette
is not planned, matching the data-model invariant that a palette is
nonempty.) -/
def process_frame (pre : List (String × Color)) (power : PowerStatus)
    (previous_color : Option String) (last_color : Option Color) (color : Color) :
    FrameResult :=
  if debounce_passes last_color color then
    let color_name := match_color_from_map_optimized color pre
    if power = .off ∨ color_name ≠ previous_color then
      { returned := color_name
        last_color := some color
        enqueued := (match color_name with
          | some cn => some (get_commands power cn)
          | none => none) }
    else
      { returned := none, last_color := some color, enqueued := none }
  else
    { returned := none, last_color := last_color, enqueued := none }

/-! ## The serialized command queue (`Backlight.command_worker`)

`backlight.py` runs exactly one worker thread (`command_worker`, lines
55-80) against a `deque` of batches shared with any number of producer
threads, all mutating under `command_lock`.  The system below is a
small-step model of that code: a `Step` is one atomic action — a producer
appending a batch under the lock (line 103), the worker's pop-and-mark
critical section (lines 59-64), one relay send inside
`light_manager.execute_commands` (the only observable events of a batch),
the worker's completion critical section (lines 73-74), or the idle-path
flag clear (lines 79-80).  The worker's program position is `phase`; a
single worker thread exists, so a pop can only happen with `phase = idle`. -/

/-- The worker thread's position: idle between batches, or executing a
batch with index `i` whose commands split as `done ++ rest`. -/
inductive WPhase where
  | idle
  | exec (i : ℕ) (done rest : List String)
deriving DecidableEq, Repr

/-- The shared state of one `Backlight`'s queue system.  `enq` records every
batch ever enqueued, in order; `popped` counts batches the worker has taken;
`trace` records each executed command tagged with its batch's index. -/
structure QSys where
  enq : List (List String)
  popped : ℕ
  queue : List (List String)
  inprog : Bool
  phase : WPhase
  trace : List (ℕ × String)
deriving DecidableEq, Repr

/-- The initial queue system: empty deque, `command_in_progress = False`,
worker idle. -/
def initQSys : QSys :=
  { enq := [], popped := 0, queue := [], inprog := false, phase := .idle, trace := [] }

/-- One atomic action of the queue system. -/
inductive QStep : QSys → QSys → Prop where
  /-- A producer thread appends a batch under `command_lock`
  (`backlight.py` line 103). -/
  | enqueue {s : QSys} (b : List String) :
      QStep s { s with enq := s.enq ++ [b], queue := s.queue ++ [b] }
  /-- The worker's critical section at lines 59-64: the queue is nonempty
  and `command_in_progress` is false, so the head batch is popped and the
  flag set.  The single worker is at the top of its loop (`phase = idle`). -/
  | pop {s : QSys} {b : List String} {rest : List (List String)}
      (hq : s.queue = b :: rest) (hip : s.inprog = false) (hph : s.phase = .idle) :
      QStep s { s with queue := rest, popped := s.popped + 1, inprog := true,
                       phase := .exec s.popped [] b }
  /-- The worker executes the next command of its current batch (one
  observable event of `execute_commands`, outside the lock). -/
  | send {s : QSys} {i : ℕ} {done rest : List String} {c : String}
      (hph : s.phase = .exec i done (c :: rest)) :
      QStep s { s with trace := s.trace ++ [(i, c)], phase := .exec i (done ++ [c]) rest }
  /-- The worker finishes its batch and clears the flag under the lock
  (lines 73-74), whether `execute_commands` returned or raised. -/
  | finish {s : QSys} {i : ℕ} {done : List String}
      (hph : s.phase = .exec i done []) :
      QStep s { s with phase := .idle, inprog := false }
  /-- The worker's idle path (lines 76-80): nothing popped, sleep, then
  clear the flag under the lock. -/
  | idleClear {s : QSys} (hph : s.phase = .idle) :
      QStep s { s with inprog := false }

/-- States reachable from the initial queue system by atomic actions. -/
inductive QReachable : QSys → Prop where
  | init : QReachable initQSys
  | step {s s' : QSys} : QReachable s → QStep s s' → QReachable s'

/-- The trace obtained by executing a list of batches end-to-end, in order,
tagging commands with batch indices starting at `i`. -/
def flatTraceFrom (i : ℕ) : List (List String) → List (ℕ × String)
  | [] => []
  | b :: bs => b.map (fun c => (i, c)) ++ flatTraceFrom (i + 1) bs

/-- The trace of executing all batches end-to-end in enqueue order. -/
def flatTrace (bs : List (List String)) : List (ℕ × String) := flatTraceFrom 0 bs

/-- The inductive invariant of the queue system. -/
def QInv (s : QSys) : Prop :=
  s.queue = s.enq.drop s.popped ∧ s.popped ≤ s.enq.length ∧
  (match s.phase with
   | .idle => s.trace = flatTrace (s.enq.take s.popped)
   | .exec i done rest =>
       s.popped = i + 1 ∧ s.enq[i]? = some (done ++ rest) ∧
       s.trace = flatTrace (s.enq.take i) ++ done.map (fun c => (i, c)))

/-! ## The color sampler (`get_most_prominent_color_optimized`,
`utils/screen_captures/helper.py` lines 8-65) -/

/-- Numpy slicing `xs[::k]`: every `k`-th element starting at index 0. -/
def strideEvery (k : ℕ) (xs : List α) : List α :=
  (xs.enum.filter (fun p => p.1 % k = 0)).map Prod.snd

/-- `img_array[::4, ::4]` (line 16): every 4th row, every 4th column. -/
def downsample (grid : List (List Color)) : List (List Color) :=
  (strideEvery 4 grid).map (strideEvery 4)

/-- `downsampled.reshape(-1, 3)` (line 19): the downsampled pixels in
row-major order. -/
def samplePixels (grid : List (List Color)) : List Color :=
  (downsample grid).flatten

/-- The near-black / near-white test of line 25. -/
def isFilteredOut (p : Color) : Bool :=
  (decide (p.1 < 30) && decide (p.2.1 < 30) && decide (p.2.2 < 30)) ||
  (decide (225 < p.1) && decide (225 < p.2.1) && decide (225 < p.2.2))

/-- `filtered_pixels` (lines 22-26): the surviving downsampled pixels. -/
def filteredPixels (grid : List (List Color)) : List Color :=
  (samplePixels grid).filter (fun p => !(isFilteredOut p))

/-- The distinct pixel colors of a list in first-encountered order — the
key order of a Python `Counter` built from the list. -/
def distinctInOrder (xs : List Color) : List Color :=
  xs.foldl (fun acc x => if x ∈ acc then acc else acc ++ [x]) []

/-- `Counter(xs).items()`: each distinct color with its multiplicity, in
first-encountered order. -/
def counterItems (xs : List Color) : List (Color × ℕ) :=
  (distinctInOrder xs).map (fun c => (c, xs.count c))

/-- Stable insertion for a descending sort by count: `x` is placed before
the first element whose count is `≤` its own, so among equal counts earlier
elements stay first. -/
def insertByCount (x : α × ℕ) : List (α × ℕ) → List (α × ℕ)
  | [] => [x]
  | y :: ys => if y.2 ≤ x.2 then x :: y :: ys else y :: insertByCount x ys

/-- Stable descending sort by count (insertion sort). -/
def sortByCountDesc (xs : List (α × ℕ)) : List (α × ℕ) :=
  xs.foldr insertByCount []

/-- `Counter(xs).most_common(n)`: the `n` highest-count entries, counts
descending, equal counts in first-encountered order (CPython's
`most_common` is `sorted(items, key=count, reverse=True)` restricted to
`n`, and that sort is stable over the dict's insertion order). -/
def most_common (n : ℕ) (xs : List Color) : List (Color × ℕ) :=
  (sortByCountDesc (counterItems xs)).take n

/-- Saturation `(max−min)/max`, `0` if `max = 0` (lines 48-50), as an exact
rational. -/
def saturation (c : Color) : ℚ :=
  let M : ℚ := max (c.1 : ℚ) (max (c.2.1 : ℚ) (c.2.2 : ℚ))
  let m : ℚ := min (c.1 : ℚ) (min (c.2.1 : ℚ) (c.2.2 : ℚ))
  if M = 0 then 0 else (M - m) / M

/-- Brightness `(r + g + b) / (3 * 255)` (line 53).  In the source `r`,
`g`, `b` are numpy `uint8` scalars (the pixel tuples are taken from a
`uint8` array), so the channel sum wraps modulo 256 before the float
division: e.g. `(120,120,120)` has brightness `104/765`, not `360/765`. -/
def brightnessOf (c : Color) : ℚ :=
  (((c.1 + c.2.1 + c.2.2) % 256 : ℕ) : ℚ) / (3 * 255)

/-- The eye-catching score of line 59:
`(saturation·0.7 + brightness·0.3) · (count/total + 0.2)`, as an exact
rational (the source computes it in floating point; all constants here are
exactly the decimal literals of the source, and `brightnessOf` carries the
source's `uint8` wrap of the channel sum). -/
def eyeScore (total : ℕ) (ck : Color × ℕ) : ℚ :=
  (saturation ck.1 * (7 / 10) + brightnessOf ck.1 * (3 / 10)) *
    ((ck.2 : ℚ) / (total : ℚ) + 1 / 5)

/-- Modelled from the claim's words, for comparison with the source:
"brightness is the mean channel value normalized to [0,1]" — the unwrapped
channel sum over `3·255`. -/
def claimMeanBrightness (c : Color) : ℚ :=
  ((c.1 : ℚ) + (c.2.1 : ℚ) + (c.2.2 : ℚ)) / (3 * 255)

/-- Modelled from the claim's words, for comparison with the source: the
claimed score `(0.7·saturation + 0.3·brightness)·(frequency_share + 0.2)`
with the claim's unwrapped mean-channel brightness. -/
def claimEyeScore (total : ℕ) (ck : Color × ℕ) : ℚ :=
  (saturation ck.1 * (7 / 10) + claimMeanBrightness ck.1 * (3 / 10)) *
    ((ck.2 : ℚ) / (total : ℚ) + 1 / 5)

/-- The selection loop of lines 44-63: scan the candidates keeping the
first candidate whose score strictly exceeds the running maximum. -/
def selectLoop (total : ℕ) : List (Color × ℕ) → ℚ → Color → Color
  | [], _, best => best
  | ck :: rest, maxS, best =>
      if maxS < eyeScore total ck then selectLoop total rest (eyeScore total ck) ck.1
      else selectLoop total rest maxS best

/-- `get_most_prominent_color_optimized` (lines 8-65).  `none` models the
`IndexError` Python raises on a frame with no downsampled pixels at all
(`most_common(1)[0]` on an empty counter). -/
def get_most_prominent_color_optimized (grid : List (List Color)) : Option Color :=
  let pixels := samplePixels grid
  let filtered := filteredPixels grid
  if filtered.isEmpty then
    (most_common 1 pixels).head?.map Prod.fst
  else
    match most_common 10 filtered with
    | [] => none
    | c0 :: rest => some (selectLoop filtered.length (c0 :: rest) (-1) c0.1)

/-- Modelled from the claim's words, for comparison with the source: "the
single most frequent original-grid color" — the most frequent color of the
full-resolution frame (ties first-encountered). -/
def claimOriginalMostFrequent (grid : List (List Color)) : Option Color :=
  (most_common 1 grid.flatten).head?.map Prod.fst

/-! ## The spike orchestrator (`SpikeLight.__spike_callback`,
`spike_light.py` lines 31-46) -/

/-- One device as the orchestrator sees it: its name, vocabulary and
light-manager state. -/
structure Device where
  name : String
  vocab : Vocab
  st : LMState
deriving DecidableEq, Repr

/-- The `"red" if color == "black" else color` substitution (line 36). -/
def substituteBlack (c : String) : String := if c = "black" then "red" else c

/-- The batch the first pass builds for one device (lines 37-41): `"on"`
prepended when the device's power is off, then the (substituted) color. -/
def spikeBatch (st : LMState) (c : String) : List String :=
  (if st.power_status = .off then ["on"] else []) ++ [c]

/-- The first pass of `__spike_callback` (lines 34-42), started at call
index `k` of `oracle : call index → send index → status`.  Returns the
updated devices, the log of `(device name, batch)` calls to
`execute_commands` in order, and the first exception, if any (a missing
color is Python's `AttributeError` at `None.startswith`; exceptions
propagate out of the loop at once). -/
def spikePass1 (waitParses : List Char → Bool) (oracle : ℕ → ℕ → Bool)
    (colors : String → Option String) :
    ℕ → List Device → List Device × List (String × List String) × Option String
  | _, [] => ([], [], none)
  | k, d :: ds =>
    match colors d.name with
    | none => (d :: ds, [], some "AttributeError")
    | some c0 =>
      let c := substituteBlack c0
      let cmds := spikeBatch d.st c
      let r := execute_commands d.vocab waitParses (oracle k) d.st cmds
      match r.error with
      | some e => ({ d with st := r.state } :: ds, [(d.name, cmds)], some e)
      | none =>
        let rec' := spikePass1 waitParses oracle colors (k + 1) ds
        ({ d with st := r.state } :: rec'.1, (d.name, cmds) :: rec'.2.1, rec'.2.2)

/-- The second pass of `__spike_callback` (lines 45-46): `["off"]` to every
device in the same order. -/
def spikePass2 (waitParses : List Char → Bool) (oracle : ℕ → ℕ → Bool) :
    ℕ → List Device → List Device × List (String × List String) × Option String
  | _, [] => ([], [], none)
  | k, d :: ds =>
    let r := execute_commands d.vocab waitParses (oracle k) d.st ["off"]
    match r.error with
    | some e => ({ d with st := r.state } :: ds, [(d.name, ["off"])], some e)
    | none =>
      let rec' := spikePass2 waitParses oracle (k + 1) ds
      ({ d with st := r.state } :: rec'.1, (d.name, ["off"]) :: rec'.2.1, rec'.2.2)

/-- `SpikeLight.__spike_callback` (lines 31-46) given the per-device
classification `colors` (the result of `screen_monitor.get_color_name()`):
light every device in order, then turn every device off in order. -/
def spike_callback (waitParses : List Char → Bool) (oracle : ℕ → ℕ → Bool)
    (colors : String → Option String) (devices : List Device) :
    List Device × List (String × List String) × Option String :=
  let p1 := spikePass1 waitParses oracle colors 0 devices
  match p1.2.2 with
  | some e => (p1.1, p1.2.1, some e)
  | none =>
    let p2 := spikePass2 waitParses oracle devices.length p1.1
    (p2.1, p1.2.1 ++ p2.2.1, p2.2.2)

/-! ## Claim theorems -/

/-- **C3** — The Command Planner, with blink delay 0.1, satisfies:
`plan("black", OFF) = []`; `plan("black", ON) = [blink_mode, wait_0.1, off]`;
and for every color name `c` other than `"black"`,
`plan(c, OFF) = [on, c, normal_mode]` and
`plan(c, ON) = [blink_mode, wait_0.1, c, normal_mode]`. -/
theorem get_commands_plan (c : String) (hc : c ≠ "black") :
    get_commands .off "black" = [] ∧
    get_commands .on "black" = ["blink_mode", "wait_0.1", "off"] ∧
    get_commands .off c = ["on", c, "normal_mode"] ∧
    get_commands .on c = ["blink_mode", "wait_0.1", c, "normal_mode"] := by
  refine ⟨rfl, rfl, ?_, ?_⟩ <;> simp [get_commands, hc]

/-- Witness for C3 at the concrete color `"red"`. -/
theorem get_commands_plan_witness :
    ("red" : String) ≠ "black" ∧
      get_commands .off "red" = ["on", "red", "normal_mode"] ∧
      get_commands .on "red" = ["blink_mode", "wait_0.1", "red", "normal_mode"] :=
  ⟨by decide, (get_commands_plan "red" (by decide)).2.2.1,
    (get_commands_plan "red" (by decide)).2.2.2⟩

/-- **C6** — A command equal to the device's `previous_color` while
`power_status = ON` is skipped entirely: no packet is sent and the state is
unchanged (the `continue` at `utils/light_manager.py` lines 86-90). -/
theorem execOne_elides (vocab : Vocab) (waitParses : List Char → Bool) (oracle : ℕ → Bool)
    (st : LMState) (sent : List (ℕ × String)) (i : ℕ) (c : String)
    (hprev : st.previous_color = some c) (hpow : st.power_status = .on) :
    execOne vocab waitParses oracle { state := st, sent := sent, error := none } i c =
      { state := st, sent := sent, error := none } := by
  simp [execOne, hprev, hpow]

/-- Witness for C6: with `previous_color = "red"` and power on, `"red"` is
skipped. -/
theorem execOne_elides_witness :
    ({ previous_color := some "red", power_status := .on,
       brightness_level := none } : LMState).previous_color = some "red" ∧
      execOne [("red", "P")] (fun _ => true) (fun _ => true)
        { state := { previous_color := some "red", power_status := .on,
                     brightness_level := none }, sent := [], error := none } 0 "red" =
        { state := { previous_color := some "red", power_status := .on,
                     brightness_level := none }, sent := [], error := none } :=
  ⟨rfl, execOne_elides [("red", "P")] (fun _ => true) (fun _ => true) _ [] 0 "red" rfl rfl⟩

/-- **C10** — When the relay send of a command fails (non-200 status), the
device state is untouched by that command: only the sent-packet log grows;
`previous_color`, `power_status` and `brightness_level` are exactly those
the command started with (lines 99-120 of `utils/light_manager.py` mutate
state only under `response.status_code == 200`). -/
theorem execOne_failure_atomic (vocab : Vocab) (waitParses : List Char → Bool)
    (oracle : ℕ → Bool) (st : LMState) (sent : List (ℕ × String)) (i : ℕ) (c : String)
    (pkt : String)
    (hne : ¬(st.previous_color = some c ∧ st.power_status = .on))
    (hw : pyStartsWith c "wait" = false)
    (hlook : vocab.lookup c = some pkt)
    (hfail : oracle sent.length = false) :
    execOne vocab waitParses oracle { state := st, sent := sent, error := none } i c =
      { state := st, sent := sent ++ [(i, pkt)], error := none } := by
  simp [execOne, hne, hw, hlook, hfail]

/-- Witness for C10: a failed send of `"red"` leaves the state unchanged. -/
theorem execOne_failure_atomic_witness :
    execOne [("red", "P")] (fun _ => true) (fun _ => false)
        { state := { previous_color := some "blue", power_status := .off,
                     brightness_level := some 2 }, sent := [], error := none } 0 "red" =
      { state := { previous_color := some "blue", power_status := .off,
                   brightness_level := some 2 }, sent := [(0, "P")], error := none } :=
  execOne_failure_atomic [("red", "P")] (fun _ => true) (fun _ => false) _ [] 0 "red" "P"
    (by decide) (by decide) (by decide) rfl

/-- **C4** — When a command's send succeeds, the state update is
`applySuccess`, which: sets `power_status` to ON for `"on"` and OFF for
`"off"`; changes `brightness_level` by ±1 for
`increase_brightness`/`decrease_brightness` only when it is tracked and
leaves it untracked otherwise; and for every other command sets
`previous_color` to the command only when a previous color is tracked,
leaving it unset otherwise. -/
theorem execOne_success_updates (vocab : Vocab) (waitParses : List Char → Bool)
    (oracle : ℕ → Bool) (st : LMState) (sent : List (ℕ × String)) (i : ℕ) (c : String)
    (pkt : String)
    (hne : ¬(st.previous_color = some c ∧ st.power_status = .on))
    (hw : pyStartsWith c "wait" = false)
    (hlook : vocab.lookup c = some pkt)
    (hok : oracle sent.length = true) :
    execOne vocab waitParses oracle { state := st, sent := sent, error := none } i c =
      { state := applySuccess st c, sent := sent ++ [(i, pkt)], error := none } ∧
    (c = "on" → applySuccess st c = { st with power_status := .on }) ∧
    (c = "off" → applySuccess st c = { st with power_status := .off }) ∧
    (∀ b, st.brightness_level = some b →
      applySuccess st "increase_brightness" = { st with brightness_level := some (b + 1) } ∧
      applySuccess st "decrease_brightness" = { st with brightness_level := some (b - 1) }) ∧
    (st.brightness_level = none →
      applySuccess st "increase_brightness" = st ∧
      applySuccess st "decrease_brightness" = st) ∧
    (c ∉ except_color_commands →
      (∀ p, st.previous_color = some p →
        applySuccess st c = { st with previous_color := some c }) ∧
      (st.previous_color = none → applySuccess st c = st)) := by
  refine ⟨by simp [execOne, hne, hw, hlook, hok], ?_, ?_, ?_, ?_, ?_⟩
  · rintro rfl; simp [applySuccess]
  · rintro rfl; simp [applySuccess]
  · intro b hb
    constructor <;> simp [applySuccess, except_color_commands, hb]
  · intro hb
    constructor <;> simp [applySuccess, except_color_commands, hb]
  · intro hce
    have h1 : ¬(c = "on" ∨ c = "off") := by
      simp only [except_color_commands, List.mem_cons, List.mem_singleton] at hce
      tauto
    constructor
    · intro p hp
      simp [applySuccess, h1, hce, hp]
    · intro hp
      simp [applySuccess, h1, hce, hp]

/-- Witness for C4: a successful send of `"red"` with a tracked previous
color updates `previous_color` to `"red"`. -/
theorem execOne_success_updates_witness :
    execOne [("red", "P")] (fun _ => true) (fun _ => true)
        { state := { previous_color := some "blue", power_status := .off,
                     brightness_level := none }, sent := [], error := none } 0 "red" =
      { state := applySuccess { previous_color := some "blue", power_status := .off,
                                brightness_level := none } "red",
        sent := [(0, "P")], error := none } ∧
    applySuccess { previous_color := some "blue", power_status := .off,
                   brightness_level := none } "red" =
      { previous_color := some "red", power_status := .off, brightness_level := none } := by
  have h := execOne_success_updates [("red", "P")] (fun _ => true) (fun _ => true)
    { previous_color := some "blue", power_status := .off, brightness_level := none }
    [] 0 "red" "P" (by decide) (by decide) (by decide) rfl
  exact ⟨h.1, (h.2.2.2.2.2 (by decide)).1 "blue" rfl⟩

/-- **C2 (amended)** — If any command of the batch that does not start with
`"wait"` is absent from the vocabulary, `execute_commands` raises the
unsupported-command error up front: no packet is sent and
`previous_color`, `power_status`, `brightness_level` are unchanged.
(Commands starting with `"wait"` — not just well-formed `wait_<seconds>`
commands — are exempt from the check.) -/
theorem execute_commands_vocab_check (vocab : Vocab) (waitParses : List Char → Bool)
    (oracle : ℕ → Bool) (st : LMState) (cmds : List String)
    (h : ∃ c ∈ cmds, pyStartsWith c "wait" = false ∧ vocab.lookup c = none) :
    (execute_commands vocab waitParses oracle st cmds).state = st ∧
    (execute_commands vocab waitParses oracle st cmds).sent = [] ∧
    ∃ c', (execute_commands vocab waitParses oracle st cmds).error =
      some ("Command " ++ c' ++ " not supported") := by
  have hsome : (cmds.find? (fun c => !(pyStartsWith c "wait") && (vocab.lookup c).isNone)).isSome := by
    rw [List.find?_isSome]
    obtain ⟨c, hc, hw, hl⟩ := h
    exact ⟨c, hc, by simp [hw, hl]⟩
  obtain ⟨c', hc'⟩ := Option.isSome_iff_exists.mp hsome
  refine ⟨?_, ?_, c', ?_⟩ <;> simp [execute_commands, hc']

/-- Witness for the amended C2: the unknown command `"zap"` fails the batch
up front. -/
theorem execute_commands_vocab_check_witness :
    (execute_commands [("on", "P")] (fun _ => true) (fun _ => true)
        { previous_color := none, power_status := .off, brightness_level := none }
        ["on", "zap"]).state =
      { previous_color := none, power_status := .off, brightness_level := none } ∧
    (execute_commands [("on", "P")] (fun _ => true) (fun _ => true)
        { previous_color := none, power_status := .off, brightness_level := none }
        ["on", "zap"]).sent = [] ∧
    ∃ c', (execute_commands [("on", "P")] (fun _ => true) (fun _ => true)
        { previous_color := none, power_status := .off, brightness_level := none }
        ["on", "zap"]).error = some ("Command " ++ c' ++ " not supported") :=
  execute_commands_vocab_check [("on", "P")] (fun _ => true) (fun _ => true) _ _
    ⟨"zap", by decide, by decide, by decide⟩

/-- **C2 counterexample** — The claim as stated is false: the up-front
vocabulary check exempts every command *starting with* `"wait"`, not only
`wait_<seconds>` commands.  `"waitx"` is not a `wait_*` command (it does not
start with `"wait_"`) and is absent from the vocabulary, yet the batch
`["red", "waitx"]` is not rejected up front: the packet for `"red"` is sent,
and the batch then dies with an `IndexError` (from
`float(command.split("_")[1])`), not with the unsupported-command error. -/
theorem execute_commands_vocab_check_counterexample :
    pyStartsWith "waitx" "wait_" = false ∧
    ([("red", "P_RED")] : Vocab).lookup "waitx" = none ∧
    "waitx" ∈ ["red", "waitx"] ∧
    (execute_commands [("red", "P_RED")] (fun _ => true) (fun _ => true)
        { previous_color := none, power_status := .off, brightness_level := none }
        ["red", "waitx"]).sent = [(0, "P_RED")] ∧
    (execute_commands [("red", "P_RED")] (fun _ => true) (fun _ => true)
        { previous_color := none, power_status := .off, brightness_level := none }
        ["red", "waitx"]).error = some "IndexError" := by
  decide

/-- One loop iteration adds at most one entry to the sent-packet log, and
any entry it adds is tagged with the current batch position. -/
lemma execOne_sent_cases (vocab : Vocab) (waitParses : List Char → Bool) (oracle : ℕ → Bool)
    (acc : ExecResult) (i : ℕ) (c : String) :
    (execOne vocab waitParses oracle acc i c).sent = acc.sent ∨
    ∃ pkt, (execOne vocab waitParses oracle acc i c).sent = acc.sent ++ [(i, pkt)] := by
  unfold execOne
  rcases acc with ⟨st, sent, err⟩
  rcases err with _ | e
  · dsimp only
    split
    · exact .inl rfl
    · split
      · split
        · exact .inl rfl
        · split
          · exact .inl rfl
          · exact .inl rfl
      · split
        · exact .inl rfl
        · split
          · exact .inr ⟨_, rfl⟩
          · exact .inr ⟨_, rfl⟩
  · exact .inl rfl

/-- The loop invariant for C5's at-most-once part: if every logged entry is
tagged below the current position and the tags so far strictly increase,
that stays true through the rest of the loop. -/
lemma execLoop_sent_chain (vocab : Vocab) (waitParses : List Char → Bool) (oracle : ℕ → Bool)
    (cmds : List String) (i : ℕ) (acc : ExecResult)
    (hlt : ∀ p ∈ acc.sent, p.1 < i)
    (hch : (acc.sent.map Prod.fst).Chain' (· < ·)) :
    ((execLoop vocab waitParses oracle i acc cmds).sent.map Prod.fst).Chain' (· < ·) := by
  induction cmds generalizing i acc with
  | nil => exact hch
  | cons c cs ih =>
    apply ih
    · intro p hp
      rcases execOne_sent_cases vocab waitParses oracle acc i c with h | ⟨pkt, h⟩
      · rw [h] at hp
        exact lt_trans (hlt p hp) (Nat.lt_succ_self i)
      · rw [h] at hp
        rcases List.mem_append.mp hp with h1 | h1
        · exact lt_trans (hlt p h1) (Nat.lt_succ_self i)
        · simp only [List.mem_singleton] at h1
          subst h1
          exact Nat.lt_succ_self i
    · rcases execOne_sent_cases vocab waitParses oracle acc i c with h | ⟨pkt, h⟩
      · rw [h]; exact hch
      · rw [h, List.map_append]
        refine List.Chain'.append hch (by simp) ?_
        intro x hx y hy
        simp only [List.map_cons, List.map_nil, List.head?_cons, Option.mem_def,
          Option.some.injEq] at hy
        subst hy
        have hx' : x ∈ acc.sent.map Prod.fst := List.mem_of_mem_getLast? hx
        obtain ⟨p, hp, rfl⟩ := List.mem_map.mp hx'
        exact hlt p hp

/-- **C5** — A failed relay send is not fatal and is never retried: a
command whose send returns a non-success status raises no error and adds
exactly its one packet to the log (so the loop goes on to the next command
of the same batch), and over a whole batch the batch positions of the sent
packets strictly increase — every command's packet is sent at most once. -/
theorem execute_commands_failure_continues (vocab : Vocab) (waitParses : List Char → Bool)
    (oracle : ℕ → Bool) (st : LMState) (cmds : List String) :
    (∀ (acc : ExecResult) (i : ℕ) (c : String) (pkt : String),
      acc.error = none →
      ¬(acc.state.previous_color = some c ∧ acc.state.power_status = .on) →
      pyStartsWith c "wait" = false →
      vocab.lookup c = some pkt →
      oracle acc.sent.length = false →
      (execOne vocab waitParses oracle acc i c).error = none ∧
      (execOne vocab waitParses oracle acc i c).sent = acc.sent ++ [(i, pkt)]) ∧
    ((execute_commands vocab waitParses oracle st cmds).sent.map Prod.fst).Chain' (· < ·) := by
  constructor
  · intro acc i c pkt herr hne hw hlook hfail
    rcases acc with ⟨ast, asent, aerr⟩
    cases aerr with
    | none => constructor <;> simp [execOne, hne, hw, hlook] at hfail ⊢ <;> simp [hfail]
    | some e => exact absurd herr (by simp)
  · unfold execute_commands
    split
    · simp
    · exact execLoop_sent_chain vocab waitParses oracle cmds 0
        { state := st, sent := [], error := none } (by simp) (by simp)

/-- Witness for C5: a batch of two `"red"` sends against an always-failing
relay sends each packet exactly once, in order, with no error. -/
theorem execute_commands_failure_continues_witness :
    ((execOne [("red", "P")] (fun _ => true) (fun _ => false)
        { state := { previous_color := none, power_status := .off, brightness_level := none },
          sent := [], error := none } 0 "red").error = none ∧
      (execOne [("red", "P")] (fun _ => true) (fun _ => false)
        { state := { previous_color := none, power_status := .off, brightness_level := none },
          sent := [], error := none } 0 "red").sent = [] ++ [(0, "P")]) ∧
    ((execute_commands [("red", "P"), ("blue", "Q")] (fun _ => true) (fun _ => false)
        { previous_color := none, power_status := .off, brightness_level := none }
        ["red", "blue"]).sent.map Prod.fst).Chain' (· < ·) :=
  ⟨(execute_commands_failure_continues [("red", "P")] (fun _ => true) (fun _ => false)
      { previous_color := none, power_status := .off, brightness_level := none } []).1
      _ 0 "red" "P" rfl (by decide) (by decide) (by decide) rfl,
    (execute_commands_failure_continues [("red", "P"), ("blue", "Q")] (fun _ => true)
      (fun _ => false)
      { previous_color := none, power_status := .off, brightness_level := none }
      ["red", "blue"]).2⟩

/-- `sqrt d > 20 ↔ d > 400`: the source's comparison of the Euclidean
distance against 20 is the squared comparison used in `debounce_passes`. -/
lemma sqrt_gt_twenty_iff (d : ℤ) : 20 < Real.sqrt (d : ℝ) ↔ 400 < d := by
  rw [Real.lt_sqrt (by norm_num : (0 : ℝ) ≤ 20)]
  constructor
  · intro h
    exact_mod_cast (by norm_num : ((20 : ℝ) ^ 2) = 400) ▸ h
  · intro h
    have : (400 : ℝ) < (d : ℝ) := by exact_mod_cast h
    nlinarith

/-- **C7** — The debounce filter of `Backlight.process_frame`: when a prior
sample exists and the new sample's Euclidean distance to it is within 20
units, the frame is suppressed (nothing classified, nothing enqueued,
`last_color` untouched); when no prior sample exists or the distance
exceeds 20, the filter passes and the frame proceeds to classification and
planning (and `last_color` is updated to the new sample). -/
theorem debounce_filter (pre : List (String × Color)) (power : PowerStatus)
    (prev : Option String) (l color : Color) :
    (Real.sqrt ((sqDist color l : ℤ) : ℝ) ≤ 20 →
      debounce_passes (some l) color = false ∧
      process_frame pre power prev (some l) color =
        { returned := none, last_color := some l, enqueued := none }) ∧
    (20 < Real.sqrt ((sqDist color l : ℤ) : ℝ) →
      debounce_passes (some l) color = true ∧
      (process_frame pre power prev (some l) color).last_color = some color) ∧
    (debounce_passes none color = true ∧
      (process_frame pre power prev none color).last_color = some color) := by
  refine ⟨?_, ?_, ?_⟩
  · intro hle
    have hnot : ¬(400 < sqDist color l) := by
      intro h400
      exact absurd ((sqrt_gt_twenty_iff (sqDist color l)).mpr h400) (not_lt.mpr hle)
    have hdb : debounce_passes (some l) color = false := by
      simp [debounce_passes, hnot]
    exact ⟨hdb, by simp [process_frame, hdb]⟩
  · intro hgt
    have h400 : 400 < sqDist color l := (sqrt_gt_twenty_iff (sqDist color l)).mp hgt
    have hdb : debounce_passes (some l) color = true := by
      simp [debounce_passes, h400]
    refine ⟨hdb, ?_⟩
    unfold process_frame
    rw [hdb, if_pos rfl]
    dsimp only
    split <;> rfl
  · have hdb : debounce_passes none color = true := rfl
    refine ⟨hdb, ?_⟩
    unfold process_frame
    rw [hdb, if_pos rfl]
    dsimp only
    split <;> rfl

/-- Witness for C7: the sample `(3,0,0)` is 3 units from the prior sample
`(0,0,0)` and is suppressed; the sample `(30,0,0)` is 30 units away and
passes. -/
theorem debounce_filter_witness :
    process_frame [("black", (0, 0, 0))] .off none (some (0, 0, 0)) (3, 0, 0) =
      { returned := none, last_color := some (0, 0, 0), enqueued := none } ∧
    debounce_passes (some (0, 0, 0)) (30, 0, 0) = true := by
  constructor
  · refine ((debounce_filter [("black", (0, 0, 0))] .off none (0, 0, 0) (3, 0, 0)).1 ?_).2
    have h9 : ((sqDist (3, 0, 0) (0, 0, 0) : ℤ) : ℝ) = 9 := by
      norm_num [sqDist]
    rw [h9, show (9 : ℝ) = 3 ^ 2 by norm_num, Real.sqrt_sq (by norm_num : (0 : ℝ) ≤ 3)]
    norm_num
  · refine ((debounce_filter [("black", (0, 0, 0))] .off none (0, 0, 0) (30, 0, 0)).2.1 ?_).1
    rw [sqrt_gt_twenty_iff]
    decide

/-- `flatTraceFrom` distributes over append, shifting the start index. -/
lemma flatTraceFrom_append (i : ℕ) (xs ys : List (List String)) :
    flatTraceFrom i (xs ++ ys) = flatTraceFrom i xs ++ flatTraceFrom (i + xs.length) ys := by
  induction xs generalizing i with
  | nil => simp [flatTraceFrom]
  | cons b bs ih =>
      simp only [List.cons_append, flatTraceFrom, List.length_cons, List.append_eq]
      rw [ih (i + 1), show i + 1 + bs.length = i + (bs.length + 1) from by omega,
        List.append_assoc]

/-- The initial queue system satisfies the invariant. -/
lemma QInv_init : QInv initQSys := by
  refine ⟨rfl, by simp [initQSys], ?_⟩
  simp [initQSys, flatTrace, flatTraceFrom]

/-- The invariant is preserved by every atomic action. -/
lemma QInv_step {s s' : QSys} (hinv : QInv s) (hstep : QStep s s') : QInv s' := by
  obtain ⟨hq, hle, hph⟩ := hinv
  cases hstep with
  | enqueue b =>
      refine ⟨?_, ?_, ?_⟩
      · simp only
        rw [List.drop_append_of_le_length hle, hq]
      · simp only [List.length_append, List.length_cons, List.length_nil]
        omega
      · simp only
        cases hphase : s.phase with
        | idle =>
            rw [hphase] at hph
            rw [List.take_append_of_le_length hle]
            exact hph
        | exec i done rest =>
            rw [hphase] at hph
            obtain ⟨hpop, hget, htr⟩ := hph
            have hilt : i < s.enq.length := by
              have := List.getElem?_eq_some_iff.mp hget
              exact this.1
            refine ⟨hpop, ?_, ?_⟩
            · rw [List.getElem?_append_left hilt]
              exact hget
            · rw [List.take_append_of_le_length (le_of_lt hilt)]
              exact htr
  | pop hqueue hip hphase =>
      rw [hphase] at hph
      have hlt : s.popped < s.enq.length := by
        have : (s.enq.drop s.popped).length = (s.queue).length := by rw [hq]
        rw [List.length_drop, hqueue] at this
        simp only [List.length_cons] at this
        omega
      refine ⟨?_, ?_, ?_⟩
      · simp only
        have : s.enq.drop (s.popped + 1) = (s.enq.drop s.popped).drop 1 := by
          rw [List.drop_drop]
        rw [this, ← hq, hqueue]
        rfl
      · simpa using hlt
      · refine ⟨rfl, ?_, ?_⟩
        · have h2 := List.getElem?_drop s.enq s.popped 0
          rw [← hq, hqueue] at h2
          simp only [List.getElem?_cons_zero, Nat.add_zero] at h2
          simp [← h2]
        · simpa [flatTrace] using hph
  | send hphase =>
      rw [hphase] at hph
      obtain ⟨hpop, hget, htr⟩ := hph
      refine ⟨hq, hle, hpop, ?_, ?_⟩
      · rw [hget]
        simp [List.append_assoc]
      · simp only [htr, List.map_append, List.append_assoc]
        rfl
  | finish hphase =>
      rw [hphase] at hph
      obtain ⟨hpop, hget, htr⟩ := hph
      rename_i i done
      refine ⟨hq, hle, ?_⟩
      have hilt : i < s.enq.length := (List.getElem?_eq_some_iff.mp hget).1
      simp only [hpop, flatTrace]
      rw [List.take_succ, hget]
      simp only [Option.toList_some]
      rw [flatTraceFrom_append]
      simp only [flatTraceFrom, List.append_nil, List.length_take, Nat.zero_add]
      rw [min_eq_left (le_of_lt hilt)]
      simpa [flatTrace] using htr
  | idleClear hphase =>
      exact ⟨hq, hle, by simpa using hph⟩

/-- Every reachable queue-system state satisfies the invariant. -/
lemma QReachable_inv {s : QSys} (h : QReachable s) : QInv s := by
  induction h with
  | init => exact QInv_init
  | step _ hstep ih => exact QInv_step ih hstep

/-- **C1** — The serialized command queue: in every reachable state the
executed trace is a prefix of the end-to-end concatenation of all enqueued
batches in enqueue order — so batches are executed one at a time, in FIFO
order, with no command of one batch between two commands of another — and
whenever the worker is idle with an empty queue, the trace is exactly that
concatenation: every enqueued batch has been executed exactly once. -/
theorem command_worker_serializes (s : QSys) (h : QReachable s) :
    s.trace <+: flatTrace s.enq ∧
    (s.queue = [] → s.phase = .idle → s.trace = flatTrace s.enq) := by
  obtain ⟨hq, hle, hph⟩ := QReachable_inv h
  cases hphase : s.phase with
  | idle =>
      rw [hphase] at hph
      constructor
      · rw [hph]
        refine ⟨flatTraceFrom (0 + (s.enq.take s.popped).length) (s.enq.drop s.popped), ?_⟩
        simp only [flatTrace]
        rw [← flatTraceFrom_append, List.take_append_drop]
      · intro hqe _
        rw [hq] at hqe
        have : s.enq.take s.popped = s.enq := by
          conv_rhs => rw [← List.take_append_drop s.popped s.enq]
          rw [hqe, List.append_nil]
        rw [hph, this]
  | exec i done rest =>
      rw [hphase] at hph
      obtain ⟨hpop, hget, htr⟩ := hph
      have hilt : i < s.enq.length := (List.getElem?_eq_some_iff.mp hget).1
      constructor
      · have hdecomp : s.enq = s.enq.take i ++ (done ++ rest) :: s.enq.drop (i + 1) := by
          conv_lhs => rw [← List.take_append_drop i s.enq]
          congr 1
          rw [List.drop_eq_getElem_cons hilt]
          congr 1
          have := List.getElem?_eq_some_iff.mp hget
          exact this.2
        rw [htr]
        conv_rhs => rw [hdecomp]
        simp only [flatTrace]
        rw [flatTraceFrom_append]
        simp only [flatTraceFrom, List.length_take, Nat.zero_add,
          min_eq_left (le_of_lt hilt), List.map_append]
        refine ⟨List.map (fun c => (i, c)) rest ++
          flatTraceFrom (i + 1) (s.enq.drop (i + 1)), ?_⟩
        simp [List.append_assoc]
      · intro _ hidle
        exact WPhase.noConfusion hidle

/-- Witness for C1: enqueue the batch `["a", "b"]`, pop it, execute both
commands, finish — the resulting reachable state's trace is the full
end-to-end flattening of the enqueue log. -/
theorem command_worker_serializes_witness :
    ({ enq := [["a", "b"]], popped := 1, queue := [], inprog := false, phase := .idle,
       trace := [(0, "a"), (0, "b")] } : QSys).trace = flatTrace [["a", "b"]] := by
  refine (command_worker_serializes _ ?_).2 rfl rfl
  exact QReachable.step
    (QReachable.step
      (QReachable.step
        (QReachable.step
          (QReachable.step QReachable.init (QStep.enqueue ["a", "b"]))
          (QStep.pop rfl rfl rfl))
        (QStep.send rfl))
      (QStep.send rfl))
    (QStep.finish rfl)

/-- A loop step on a command that does not start with `"wait"` and is in
the vocabulary never raises. -/
lemma execOne_error_none (vocab : Vocab) (waitParses : List Char → Bool) (oracle : ℕ → Bool)
    (acc : ExecResult) (i : ℕ) (c : String)
    (hacc : acc.error = none) (hw : pyStartsWith c "wait" = false)
    (hl : (vocab.lookup c).isSome) :
    (execOne vocab waitParses oracle acc i c).error = none := by
  rcases acc with ⟨st, sent, err⟩
  cases err with
  | some e => simp at hacc
  | none =>
      obtain ⟨pkt, hpkt⟩ := Option.isSome_iff_exists.mp hl
      by_cases hne : st.previous_color = some c ∧ st.power_status = .on
      · simp [execOne, hne]
      · rcases hok : oracle sent.length with _ | _ <;>
          simp [execOne, hne, hw, hpkt, hok]

/-- A batch of in-vocabulary, non-`wait` commands runs to completion with no
error, whatever the relay answers. -/
lemma execLoop_error_none (vocab : Vocab) (waitParses : List Char → Bool) (oracle : ℕ → Bool)
    (cmds : List String) (i : ℕ) (acc : ExecResult)
    (hacc : acc.error = none)
    (h : ∀ c ∈ cmds, pyStartsWith c "wait" = false ∧ (vocab.lookup c).isSome) :
    (execLoop vocab waitParses oracle i acc cmds).error = none := by
  induction cmds generalizing i acc with
  | nil => exact hacc
  | cons c cs ih =>
      exact ih (i + 1) _
        (execOne_error_none vocab waitParses oracle acc i c hacc
          (h c (by simp)).1 (h c (by simp)).2)
        (fun c' hc' => h c' (by simp [hc']))

/-- `execute_commands` on a batch of in-vocabulary, non-`wait` commands
raises nothing. -/
lemma execute_commands_error_none (vocab : Vocab) (waitParses : List Char → Bool)
    (oracle : ℕ → Bool) (st : LMState) (cmds : List String)
    (h : ∀ c ∈ cmds, pyStartsWith c "wait" = false ∧ (vocab.lookup c).isSome) :
    (execute_commands vocab waitParses oracle st cmds).error = none := by
  have hfind : cmds.find? (fun c => !(pyStartsWith c "wait") && (vocab.lookup c).isNone) = none := by
    rw [List.find?_eq_none]
    intro c hc
    obtain ⟨v, hv⟩ := Option.isSome_iff_exists.mp (h c hc).2
    simp [hv]
  rw [execute_commands, hfind]
  exact execLoop_error_none vocab waitParses oracle cmds 0 _ rfl h

/-- The hypothesis under which one spike-pass device call cannot raise:
its classified color is present, and the needed commands are in its
vocabulary and are not `wait`-prefixed. -/
def SpikeDeviceOk (colors : String → Option String) (d : Device) : Prop :=
  ∃ c, colors d.name = some c ∧
    pyStartsWith (substituteBlack c) "wait" = false ∧
    (d.vocab.lookup (substituteBlack c)).isSome ∧
    (d.vocab.lookup "on").isSome ∧ (d.vocab.lookup "off").isSome

/-- The first spike pass raises nothing, logs exactly one
`(name, spikeBatch)` call per device in list order, and preserves every
device's name and vocabulary. -/
lemma spikePass1_log (waitParses : List Char → Bool) (oracle : ℕ → ℕ → Bool)
    (colors : String → Option String) (k : ℕ) (devices : List Device)
    (h : ∀ d ∈ devices, SpikeDeviceOk colors d) :
    (spikePass1 waitParses oracle colors k devices).2.2 = none ∧
    (spikePass1 waitParses oracle colors k devices).2.1 =
      devices.map (fun d => (d.name, spikeBatch d.st (substituteBlack ((colors d.name).getD "")))) ∧
    (spikePass1 waitParses oracle colors k devices).1.map (fun d => (d.name, d.vocab)) =
      devices.map (fun d => (d.name, d.vocab)) := by
  induction devices generalizing k with
  | nil => exact ⟨rfl, rfl, rfl⟩
  | cons d ds ih =>
      obtain ⟨c, hc, hcw, hcl, honl, hoffl⟩ := h d (by simp)
      have herr : (execute_commands d.vocab waitParses (oracle k) d.st
          (spikeBatch d.st (substituteBlack c))).error = none := by
        apply execute_commands_error_none
        intro c' hc'
        by_cases hoffp : d.st.power_status = .off
        · simp [spikeBatch, hoffp] at hc'
          rcases hc' with rfl | rfl
          · exact ⟨by decide, honl⟩
          · exact ⟨hcw, hcl⟩
        · simp [spikeBatch, hoffp] at hc'
          subst hc'
          exact ⟨hcw, hcl⟩
      obtain ⟨ih1, ih2, ih3⟩ := ih (k + 1) (fun d' hd' => h d' (by simp [hd']))
      refine ⟨?_, ?_, ?_⟩ <;>
        simp [spikePass1, hc, herr, ih1, ih2, ih3]

/-- The second spike pass raises nothing and logs `(name, ["off"])` for
every device in list order. -/
lemma spikePass2_log (waitParses : List Char → Bool) (oracle : ℕ → ℕ → Bool)
    (k : ℕ) (devices : List Device)
    (h : ∀ d ∈ devices, (d.vocab.lookup "off").isSome) :
    (spikePass2 waitParses oracle k devices).2.2 = none ∧
    (spikePass2 waitParses oracle k devices).2.1 =
      devices.map (fun d => (d.name, ["off"])) := by
  induction devices generalizing k with
  | nil => exact ⟨rfl, rfl⟩
  | cons d ds ih =>
      have herr : (execute_commands d.vocab waitParses (oracle k) d.st ["off"]).error = none := by
        apply execute_commands_error_none
        intro c' hc'
        simp only [List.mem_singleton] at hc'
        subst hc'
        exact ⟨by decide, h d (by simp)⟩
      obtain ⟨ih1, ih2⟩ := ih (k + 1) (fun d' hd' => h d' (by simp [hd']))
      exact ⟨by simp [spikePass2, herr, ih1], by simp [spikePass2, herr, ih2]⟩

/-- **C8** — On a spike, for each device in the given order the
orchestrator calls the state machine with the batch `spikeBatch`: `"on"`
prepended exactly when that device's power is OFF, followed by the
classified color with `"red"` substituted for `"black"`; after all devices
have been handled in order, a second pass issues `["off"]` to every device
in the same order, and no step raises. -/
theorem spike_callback_order (waitParses : List Char → Bool) (oracle : ℕ → ℕ → Bool)
    (colors : String → Option String) (devices : List Device)
    (h : ∀ d ∈ devices, SpikeDeviceOk colors d) :
    (spike_callback waitParses oracle colors devices).2.2 = none ∧
    (spike_callback waitParses oracle colors devices).2.1 =
      devices.map (fun d =>
        (d.name, spikeBatch d.st (substituteBlack ((colors d.name).getD "")))) ++
      devices.map (fun d => (d.name, ["off"])) := by
  obtain ⟨h1, h2, h3⟩ := spikePass1_log waitParses oracle colors 0 devices h
  have hoff : ∀ d' ∈ (spikePass1 waitParses oracle colors 0 devices).1,
      (d'.vocab.lookup "off").isSome := by
    intro d' hd'
    have hmem : (d'.name, d'.vocab) ∈ devices.map (fun d => (d.name, d.vocab)) := by
      rw [← h3]
      exact List.mem_map_of_mem _ hd'
    obtain ⟨d, hd, hdeq⟩ := List.mem_map.mp hmem
    obtain ⟨c, _, _, _, _, hoffd⟩ := h d hd
    have : d'.vocab = d.vocab := by
      have := congrArg Prod.snd hdeq
      simpa using this.symm
    rw [this]
    exact hoffd
  obtain ⟨h4, h5⟩ := spikePass2_log waitParses oracle devices.length _ hoff
  have hnames : (spikePass1 waitParses oracle colors 0 devices).1.map (fun d => d.name) =
      devices.map (fun d => d.name) := by
    have := congrArg (List.map Prod.fst) h3
    simpa [List.map_map, Function.comp] using this
  have hofflog : (spikePass1 waitParses oracle colors 0 devices).1.map
      (fun d => (d.name, (["off"] : List String))) =
      devices.map (fun d => (d.name, ["off"])) := by
    have e1 : ∀ (l : List Device), l.map (fun d => (d.name, (["off"] : List String))) =
        (l.map (fun d => d.name)).map (fun n => (n, ["off"])) := by
      intro l
      rw [List.map_map]
      rfl
    rw [e1, e1, hnames]
  constructor
  · simp [spike_callback, h1, h4]
  · simp [spike_callback, h1, h2, h5, hofflog]

/-- Witness for C8: one device named `"strip"`, power off, classified
`"black"`: the call log is `[("strip", ["on", "red"]), ("strip", ["off"])]`. -/
theorem spike_callback_order_witness :
    (spike_callback (fun _ => true) (fun _ _ => true) (fun _ => some "black")
        [{ name := "strip", vocab := [("on", "PON"), ("off", "POFF"), ("red", "PRED")],
           st := { previous_color := none, power_status := .off,
                   brightness_level := none } }]).2.2 = none ∧
    (spike_callback (fun _ => true) (fun _ _ => true) (fun _ => some "black")
        [{ name := "strip", vocab := [("on", "PON"), ("off", "POFF"), ("red", "PRED")],
           st := { previous_color := none, power_status := .off,
                   brightness_level := none } }]).2.1 =
      [("strip", ["on", "red"]), ("strip", ["off"])] := by
  have h := spike_callback_order (fun _ => true) (fun _ _ => true) (fun _ => some "black")
    [{ name := "strip", vocab := [("on", "PON"), ("off", "POFF"), ("red", "PRED")],
       st := { previous_color := none, power_status := .off, brightness_level := none } }]
    (by
      intro d hd
      simp only [List.mem_singleton] at hd
      subst hd
      exact ⟨"black", rfl, by decide, by decide, by decide, by decide⟩)
  exact ⟨h.1, by rw [h.2]; rfl⟩

/-! ### Properties of the sampler's counting and selection -/

/-- Membership in `distinctInOrder`'s accumulator-passing fold. -/
lemma distinctInOrder_fold_mem (xs : List Color) :
    ∀ (acc : List Color) (a : Color),
      a ∈ xs.foldl (fun acc x => if x ∈ acc then acc else acc ++ [x]) acc ↔
        a ∈ acc ∨ a ∈ xs := by
  induction xs with
  | nil => intro acc a; simp
  | cons x xs ih =>
      intro acc a
      by_cases hx : x ∈ acc
      · rw [List.foldl_cons, if_pos hx, ih]
        constructor
        · rintro (h | h)
          · exact .inl h
          · exact .inr (by simp [h])
        · rintro (h | h)
          · exact .inl h
          · rcases List.mem_cons.mp h with rfl | h
            · exact .inl hx
            · exact .inr h
      · rw [List.foldl_cons, if_neg hx, ih]
        constructor
        · rintro (h | h)
          · rcases List.mem_append.mp h with h | h
            · exact .inl h
            · simp only [List.mem_singleton] at h
              exact .inr (by simp [h])
          · exact .inr (by simp [h])
        · rintro (h | h)
          · exact .inl (by simp [h])
          · rcases List.mem_cons.mp h with rfl | h
            · exact .inl (by simp)
            · exact .inr h

/-- `distinctInOrder` has the same members as the original list. -/
lemma mem_distinctInOrder (xs : List Color) (a : Color) :
    a ∈ distinctInOrder xs ↔ a ∈ xs := by
  rw [distinctInOrder, distinctInOrder_fold_mem]
  simp

/-- Membership in `insertByCount`. -/
lemma mem_insertByCount (x : α × ℕ) (l : List (α × ℕ)) (a : α × ℕ) :
    a ∈ insertByCount x l ↔ a = x ∨ a ∈ l := by
  induction l with
  | nil => simp [insertByCount]
  | cons y ys ih =>
      by_cases h : y.2 ≤ x.2
      · simp [insertByCount, h]
      · simp [insertByCount, h, ih]
        tauto

/-- `insertByCount` preserves descending order by count. -/
lemma insertByCount_pairwise (x : α × ℕ) (l : List (α × ℕ))
    (h : l.Pairwise (fun a b => b.2 ≤ a.2)) :
    (insertByCount x l).Pairwise (fun a b => b.2 ≤ a.2) := by
  induction l with
  | nil => simp [insertByCount]
  | cons y ys ih =>
      rcases List.pairwise_cons.mp h with ⟨hy, hys⟩
      by_cases hc : y.2 ≤ x.2
      · rw [insertByCount, if_pos hc]
        refine List.pairwise_cons.mpr ⟨?_, h⟩
        intro z hz
        rcases List.mem_cons.mp hz with rfl | hz
        · exact hc
        · exact le_trans (hy z hz) hc
      · rw [insertByCount, if_neg hc]
        refine List.pairwise_cons.mpr ⟨?_, ih hys⟩
        intro z hz
        rcases (mem_insertByCount x ys z).mp hz with rfl | hz
        · exact le_of_lt (lt_of_not_le hc)
        · exact hy z hz

/-- The head of `insertByCount`. -/
lemma insertByCount_head (x : α × ℕ) (l : List (α × ℕ)) :
    (insertByCount x l).head? =
      some (match l.head? with
            | none => x
            | some y => if y.2 ≤ x.2 then x else y) := by
  cases l with
  | nil => rfl
  | cons y ys =>
      by_cases h : y.2 ≤ x.2 <;> simp [insertByCount, h]

/-- The insertion sort is descending by count. -/
lemma sortByCountDesc_pairwise (l : List (α × ℕ)) :
    (sortByCountDesc l).Pairwise (fun a b => b.2 ≤ a.2) := by
  induction l with
  | nil => simp [sortByCountDesc]
  | cons x xs ih => exact insertByCount_pairwise x _ ih

/-- Members of the insertion sort are members of the original list. -/
lemma mem_sortByCountDesc (l : List (α × ℕ)) (a : α × ℕ) :
    a ∈ sortByCountDesc l ↔ a ∈ l := by
  induction l with
  | nil => simp [sortByCountDesc]
  | cons x xs ih =>
      rw [sortByCountDesc, List.foldr_cons, mem_insertByCount]
      rw [sortByCountDesc] at ih
      simp [ih]

/-- The insertion sort preserves length. -/
lemma sortByCountDesc_length (l : List (α × ℕ)) :
    (sortByCountDesc l).length = l.length := by
  have hins : ∀ (x : α × ℕ) (m : List (α × ℕ)),
      (insertByCount x m).length = m.length + 1 := by
    intro x m
    induction m with
    | nil => rfl
    | cons y ys ih =>
        by_cases h : y.2 ≤ x.2 <;> simp [insertByCount, h, ih]
  induction l with
  | nil => rfl
  | cons x xs ih => rw [sortByCountDesc, List.foldr_cons, hins]; simp [sortByCountDesc] at ih ⊢; omega

/-- The first entry of the list attaining the maximal count (the stable
descending sort puts it first). -/
def firstMaxEntry : List (α × ℕ) → Option (α × ℕ)
  | [] => none
  | x :: xs =>
      match firstMaxEntry xs with
      | none => some x
      | some y => if y.2 ≤ x.2 then some x else some y

/-- The head of the stable sort is the first maximal-count entry. -/
lemma sortByCountDesc_head (l : List (α × ℕ)) :
    (sortByCountDesc l).head? = firstMaxEntry l := by
  induction l with
  | nil => rfl
  | cons x xs ih =>
      rw [sortByCountDesc, List.foldr_cons, insertByCount_head]
      rw [sortByCountDesc] at ih
      rw [ih]
      rw [show firstMaxEntry (x :: xs) =
        (match firstMaxEntry xs with
         | none => some x
         | some y => if y.2 ≤ x.2 then some x else some y) from rfl]
      cases hfm : firstMaxEntry xs with
      | none => rfl
      | some y => by_cases h : y.2 ≤ x.2 <;> simp [h]

/-- `firstMaxEntry` returns the first entry with maximal count: every entry
counts no more, and every strictly earlier entry counts strictly less. -/
lemma firstMaxEntry_spec (l : List (α × ℕ)) (hne : l ≠ []) :
    ∃ i ck, firstMaxEntry l = some ck ∧ l[i]? = some ck ∧
      (∀ y ∈ l, y.2 ≤ ck.2) ∧
      (∀ (j : ℕ), j < i → ∀ (y : α × ℕ), l[j]? = some y → y.2 < ck.2) := by
  induction l with
  | nil => exact absurd rfl hne
  | cons x xs ih =>
      by_cases hxs : xs = []
      · subst hxs
        refine ⟨0, x, rfl, by simp, ?_, ?_⟩
        · intro y hy
          rcases List.mem_singleton.mp hy with rfl
          exact le_refl _
        · intro j hj
          omega
      · obtain ⟨i', ck', hfm, hget, hmax, hfirst⟩ := ih hxs
        have hunfold : firstMaxEntry (x :: xs) =
            (match firstMaxEntry xs with
             | none => some x
             | some y => if y.2 ≤ x.2 then some x else some y) := rfl
        by_cases hcc : ck'.2 ≤ x.2
        · refine ⟨0, x, ?_, by simp, ?_, ?_⟩
          · rw [hunfold, hfm]
            simp [hcc]
          · intro y hy
            rcases List.mem_cons.mp hy with rfl | hy
            · exact le_refl _
            · exact le_trans (hmax y hy) hcc
          · intro j hj
            omega
        · refine ⟨i' + 1, ck', ?_, ?_, ?_, ?_⟩
          · rw [hunfold, hfm]
            simp [hcc]
          · simpa using hget
          · intro y hy
            rcases List.mem_cons.mp hy with rfl | hy
            · exact le_of_lt (lt_of_not_le hcc)
            · exact hmax y hy
          · intro j hj y hgety
            cases j with
            | zero =>
                simp only [List.getElem?_cons_zero, Option.some.injEq] at hgety
                subst hgety
                exact lt_of_not_le hcc
            | succ j' =>
                exact hfirst j' (by omega) y (by simpa using hgety)

/-- Eye-catching scores are nonnegative (so every candidate beats the
initial running maximum `-1`). -/
lemma eyeScore_nonneg (total : ℕ) (ck : Color × ℕ) : 0 ≤ eyeScore total ck := by
  have hsat : 0 ≤ saturation ck.1 := by
    rw [saturation]
    split
    · exact le_refl 0
    · apply div_nonneg
      · rw [sub_nonneg]
        exact le_trans (min_le_left _ _) (le_max_left _ _)
      · exact le_trans (by positivity) (le_max_left _ _)
  have hbr : 0 ≤ brightnessOf ck.1 := by
    rw [brightnessOf]
    positivity
  apply mul_nonneg
  · have h7 : (0 : ℚ) ≤ 7 / 10 := by norm_num
    have h3 : (0 : ℚ) ≤ 3 / 10 := by norm_num
    exact add_nonneg (mul_nonneg hsat h7) (mul_nonneg hbr h3)
  · have : (0 : ℚ) ≤ (ck.2 : ℚ) / (total : ℚ) := by positivity
    have h5 : (0 : ℚ) ≤ 1 / 5 := by norm_num
    exact add_nonneg this h5

/-- The selection loop of the sampler returns either its running best (when
nothing beats the running maximum) or the first candidate attaining the
maximal score among those beating it. -/
lemma selectLoop_spec (total : ℕ) (l : List (Color × ℕ)) :
    ∀ (maxS : ℚ) (best : Color),
      (selectLoop total l maxS best = best ∧ ∀ y ∈ l, eyeScore total y ≤ maxS) ∨
      (∃ i ck, l[i]? = some ck ∧ selectLoop total l maxS best = ck.1 ∧
        maxS < eyeScore total ck ∧
        (∀ y ∈ l, eyeScore total y ≤ eyeScore total ck) ∧
        (∀ (j : ℕ), j < i → ∀ (y : Color × ℕ), l[j]? = some y →
          eyeScore total y ≤ maxS ∨ eyeScore total y < eyeScore total ck)) := by
  induction l with
  | nil =>
      intro maxS best
      left
      exact ⟨rfl, by simp⟩
  | cons ck0 rest ih =>
      intro maxS best
      by_cases h0 : maxS < eyeScore total ck0
      · rcases ih (eyeScore total ck0) ck0.1 with ⟨heq, hall⟩ |
          ⟨i', ck', hget, heq, hlt, hall, hfirst⟩
        · right
          refine ⟨0, ck0, by simp, ?_, h0, ?_, ?_⟩
          · rw [selectLoop, if_pos h0, heq]
          · intro y hy
            rcases List.mem_cons.mp hy with rfl | hy
            · exact le_refl _
            · exact le_trans (hall y hy) (le_refl _)
          · intro j hj
            omega
        · right
          refine ⟨i' + 1, ck', by simpa using hget, ?_, lt_trans h0 hlt, ?_, ?_⟩
          · rw [selectLoop, if_pos h0, heq]
          · intro y hy
            rcases List.mem_cons.mp hy with rfl | hy
            · exact le_of_lt hlt
            · exact hall y hy
          · intro j hj y hgety
            cases j with
            | zero =>
                simp only [List.getElem?_cons_zero, Option.some.injEq] at hgety
                subst hgety
                exact .inr hlt
            | succ j' =>
                rcases hfirst j' (by omega) y (by simpa using hgety) with h | h
                · exact .inr (lt_of_le_of_lt h hlt)
                · exact .inr h
      · rcases ih maxS best with ⟨heq, hall⟩ | ⟨i', ck', hget, heq, hlt, hall, hfirst⟩
        · left
          refine ⟨?_, ?_⟩
          · rw [selectLoop, if_neg h0, heq]
          · intro y hy
            rcases List.mem_cons.mp hy with rfl | hy
            · exact not_lt.mp h0
            · exact hall y hy
        · right
          refine ⟨i' + 1, ck', by simpa using hget, ?_, hlt, ?_, ?_⟩
          · rw [selectLoop, if_neg h0, heq]
          · intro y hy
            rcases List.mem_cons.mp hy with rfl | hy
            · exact le_of_lt (lt_of_le_of_lt (not_lt.mp h0) hlt)
            · exact hall y hy
          · intro j hj y hgety
            cases j with
            | zero =>
                simp only [List.getElem?_cons_zero, Option.some.injEq] at hgety
                subst hgety
                exact .inl (not_lt.mp h0)
            | succ j' =>
                exact hfirst j' (by omega) y (by simpa using hgety)

/-- The head of a one-element take. -/
lemma head?_take_one (l : List α) : (l.take 1).head? = l.head? := by
  cases l <;> rfl

/-- A nonempty pixel list yields a nonempty counter. -/
lemma counterItems_ne_nil (xs : List Color) (hne : xs ≠ []) :
    counterItems xs ≠ [] := by
  obtain ⟨p, hp⟩ := List.exists_mem_of_ne_nil xs hne
  intro h0
  have h1 : p ∈ distinctInOrder xs := (mem_distinctInOrder xs p).mpr hp
  have h2 : (p, xs.count p) ∈ counterItems xs := by
    rw [counterItems]
    exact List.mem_map_of_mem (fun c => (c, xs.count c)) h1
  rw [h0] at h2
  exact absurd h2 (List.not_mem_nil _)

/-- **C9 (amended)** — `get_most_prominent_color_optimized` on a frame with
at least one downsampled pixel: if discarding near-black/near-white pixels
empties the downsampled set, it returns the most frequent color *of the
downsampled grid* (first-encountered on ties); otherwise, among the
`most_common 10` surviving colors (counts descending, stable) it returns
the first one maximizing
`(0.7·saturation + 0.3·brightness)·(frequency_share + 0.2)` (`eyeScore`),
where brightness is the `uint8`-wrapped channel sum
`((r+g+b) mod 256)/765`, exact ties keeping the earlier color in frequency
order. -/
theorem get_most_prominent_color_spec (grid : List (List Color))
    (hne : samplePixels grid ≠ []) :
    (filteredPixels grid = [] →
      ∃ i ck, (counterItems (samplePixels grid))[i]? = some ck ∧
        get_most_prominent_color_optimized grid = some ck.1 ∧
        (∀ d : Color, (samplePixels grid).count d ≤ ck.2) ∧
        (∀ (j : ℕ), j < i → ∀ (y : Color × ℕ),
          (counterItems (samplePixels grid))[j]? = some y → y.2 < ck.2)) ∧
    (filteredPixels grid ≠ [] →
      (most_common 10 (filteredPixels grid)).Pairwise (fun a b => b.2 ≤ a.2) ∧
      ∃ i ck, (most_common 10 (filteredPixels grid))[i]? = some ck ∧
        get_most_prominent_color_optimized grid = some ck.1 ∧
        (∀ y ∈ most_common 10 (filteredPixels grid),
          eyeScore (filteredPixels grid).length y ≤ eyeScore (filteredPixels grid).length ck) ∧
        (∀ (j : ℕ), j < i → ∀ (y : Color × ℕ),
          (most_common 10 (filteredPixels grid))[j]? = some y →
            eyeScore (filteredPixels grid).length y <
              eyeScore (filteredPixels grid).length ck)) := by
  constructor
  · intro hfe
    obtain ⟨i, ck, hfm, hget, hmax, hfirst⟩ :=
      firstMaxEntry_spec (counterItems (samplePixels grid)) (counterItems_ne_nil _ hne)
    refine ⟨i, ck, hget, ?_, ?_, hfirst⟩
    · simp only [get_most_prominent_color_optimized]
      rw [if_pos (by rw [List.isEmpty_iff]; exact hfe)]
      rw [most_common, head?_take_one, sortByCountDesc_head, hfm]
      rfl
    · intro d
      by_cases hd : d ∈ samplePixels grid
      · refine hmax (d, (samplePixels grid).count d) ?_
        rw [counterItems]
        exact List.mem_map_of_mem (fun c => (c, (samplePixels grid).count c))
          ((mem_distinctInOrder _ d).mpr hd)
      · rw [List.count_eq_zero_of_not_mem hd]
        exact Nat.zero_le _
  · intro hfne
    refine ⟨List.Pairwise.sublist (List.take_sublist _ _) (sortByCountDesc_pairwise _), ?_⟩
    have htoplen : 0 < (most_common 10 (filteredPixels grid)).length := by
      rw [most_common, List.length_take, sortByCountDesc_length]
      have : counterItems (filteredPixels grid) ≠ [] := counterItems_ne_nil _ hfne
      have : 0 < (counterItems (filteredPixels grid)).length :=
        List.length_pos_of_ne_nil this
      omega
    cases htop : most_common 10 (filteredPixels grid) with
    | nil => rw [htop] at htoplen; simp at htoplen
    | cons c0 rest =>
        have hresult : get_most_prominent_color_optimized grid =
            some (selectLoop (filteredPixels grid).length (c0 :: rest) (-1) c0.1) := by
          simp only [get_most_prominent_color_optimized]
          rw [if_neg (by rw [List.isEmpty_iff]; exact hfne), htop]
        rcases selectLoop_spec (filteredPixels grid).length (c0 :: rest) (-1) c0.1 with
          ⟨_, hall⟩ | ⟨i, ck, hget, heq, _, hall, hfirst⟩
        · exfalso
          have h1 : eyeScore (filteredPixels grid).length c0 ≤ -1 := hall c0 (by simp)
          have h2 : (0 : ℚ) ≤ eyeScore (filteredPixels grid).length c0 :=
            eyeScore_nonneg _ c0
          linarith
        · refine ⟨i, ck, hget, by rw [hresult, heq], ?_, ?_⟩
          · intro y hy
            exact hall y hy
          · intro j hj y hgety
            rcases hfirst j hj y hgety with h | h
            · exfalso
              have h2 : (0 : ℚ) ≤ eyeScore (filteredPixels grid).length y :=
                eyeScore_nonneg _ y
              linarith
            · exact h

/-- **C9 counterexample** — The claim fails on the code in two ways.
Fallback: on a one-row frame whose downsampled (every 4th) pixels are two
copies of `(10,10,10)` — all filtered out as near-black — the sampler falls
back to the most frequent *downsampled* color `(10,10,10)`, while the most
frequent color of the original grid is `(0,0,0)` (6 of 8 pixels).
Scoring: the source sums the channels as numpy `uint8`, wrapping modulo
256, so on a frame whose surviving downsampled pixels are one
`(120,120,120)` and one `(60,60,60)` the program returns `(60,60,60)`
(wrapped brightness `104/765 < 180/765`), although the claim's unwrapped
mean-channel score ranks `(120,120,120)` strictly higher. -/
theorem get_most_prominent_color_counterexample :
    (filteredPixels [[(10, 10, 10), (0, 0, 0), (0, 0, 0), (0, 0, 0),
        (10, 10, 10), (0, 0, 0), (0, 0, 0), (0, 0, 0)]] = [] ∧
      get_most_prominent_color_optimized [[(10, 10, 10), (0, 0, 0), (0, 0, 0), (0, 0, 0),
        (10, 10, 10), (0, 0, 0), (0, 0, 0), (0, 0, 0)]] = some (10, 10, 10) ∧
      claimOriginalMostFrequent [[(10, 10, 10), (0, 0, 0), (0, 0, 0), (0, 0, 0),
        (10, 10, 10), (0, 0, 0), (0, 0, 0), (0, 0, 0)]] = some (0, 0, 0) ∧
      ((10, 10, 10) : Color) ≠ (0, 0, 0)) ∧
    (most_common 10 (filteredPixels
        [[(120, 120, 120), (0, 0, 0), (0, 0, 0), (0, 0, 0), (60, 60, 60)]]) =
        [((120, 120, 120), 1), ((60, 60, 60), 1)] ∧
      get_most_prominent_color_optimized
        [[(120, 120, 120), (0, 0, 0), (0, 0, 0), (0, 0, 0), (60, 60, 60)]] =
        some (60, 60, 60) ∧
      claimEyeScore 2 ((60, 60, 60), 1) < claimEyeScore 2 ((120, 120, 120), 1)) := by
  refine ⟨by decide, by decide, ?_, ?_⟩
  · have h1 : (-1 : ℚ) < eyeScore 2 ((120, 120, 120), 1) := by
      norm_num [eyeScore, saturation, brightnessOf]
    have h2 : eyeScore 2 ((120, 120, 120), 1) < eyeScore 2 ((60, 60, 60), 1) := by
      norm_num [eyeScore, saturation, brightnessOf]
    have htop : most_common 10 (filteredPixels
        [[(120, 120, 120), (0, 0, 0), (0, 0, 0), (0, 0, 0), (60, 60, 60)]]) =
        [((120, 120, 120), 1), ((60, 60, 60), 1)] := by decide
    have hlen : (filteredPixels
        [[(120, 120, 120), (0, 0, 0), (0, 0, 0), (0, 0, 0), (60, 60, 60)]]).length = 2 := by
      decide
    simp only [get_most_prominent_color_optimized]
    rw [if_neg (by decide), htop, hlen]
    simp only [selectLoop]
    rw [if_pos h1, if_pos h2]
  · norm_num [claimEyeScore, claimMeanBrightness, saturation]

/-- Witness for the amended C9 on the one-pixel frame `[[(200,0,0)]]`. -/
theorem get_most_prominent_color_spec_witness :
    samplePixels [[((200 : ℕ), (0 : ℕ), (0 : ℕ))]] ≠ [] ∧
    get_most_prominent_color_optimized [[(200, 0, 0)]] = some (200, 0, 0) := by
  refine ⟨by decide, ?_⟩
  obtain ⟨-, hmain⟩ := get_most_prominent_color_spec [[(200, 0, 0)]] (by decide)
  obtain ⟨-, i, ck, hget, hres, -, -⟩ := hmain (by decide)
  rw [hres]
  have htop : most_common 10 (filteredPixels [[(200, 0, 0)]]) = [((200, 0, 0), 1)] := by
    decide
  rw [htop] at hget
  have hck : ck = ((200, 0, 0), 1) := by
    rcases i with _ | i
    · simpa using hget.symm
    · simp at hget
  rw [hck]

end RGBLight
